import Mathlib

/-!
Shallow embedding of the energy-forecast utility modules
(src/utils/data_utils.py and src/utils/model_utils.py).

Modelling conventions:
* The source data is hourly, so a timestamp is an integer number of hours
  since 1970-01-01 00:00; the calendar date of a timestamp is its floor
  division by 24 (days since 1970-01-01).
* A missing value (NaN) is modelled as none in Option; arithmetic on
  possibly-missing values propagates none, and comparisons against a
  missing operand are false, matching IEEE NaN comparison semantics used
  by pandas and numpy.
* A DataFrame with columns ds and y plus arbitrary untouched extra
  columns is a list of Row records; the per-row extra payload stands for
  all other columns.
* Rolling windows follow the pandas fixed-window indexer with center set:
  at position i the window covers rows i + 1 + off - w .. i + off where
  off = (w - 1) / 2, and the result is missing unless the full window of
  w non-missing samples is available (min_periods defaults to the window
  size).
-/

set_option autoImplicit false

/-- Observed values (floats in the source, modelled as rationals). -/
abbrev Val := ℚ

/-- Timestamps: integer hours since 1970-01-01 00:00. -/
abbrev Ts := Int

/-- Calendar date of a timestamp, as days since 1970-01-01. -/
def dateOf (t : Ts) : Int := Int.fdiv t 24

/-- One row of a frame with columns ds and y; extra stands for every
other column, which clean_train_data never touches. -/
structure Row (α : Type) where
  ds : Ts
  y : Option Val
  extra : α
deriving DecidableEq

/-- One row of the frame returned by clean_train_data: the source adds
the columns rolling_median, iqr and is_outlier, drops y and renames
y_clean to y. -/
structure CleanRow (α : Type) where
  ds : Ts
  extra : α
  rolling_median : Option Val
  iqr : Option Val
  is_outlier : Nat
  y : Option Val
deriving DecidableEq

/-- The resolved cleaning parameters (the dict branch of the source; the
optuna branch only produces such a dict). -/
structure CleaningParams where
  window_size : Nat
  iqr_multiplier : Val
  hurricane_window : Nat

/-- The two hard-coded anchor dates 2012-10-29 and 2017-09-10, as days
since 1970-01-01 (both parse to midnight timestamps). -/
def hurricaneAnchorDays : List Int := [15642, 17419]

/-- hurricane_periods from the source: pd.date_range(start, end) with
daily frequency yields the midnight timestamp of each day from
anchor - hw days to anchor + hw days, for each anchor. -/
def hurricanePeriods (hw : Nat) : List Ts :=
  (hurricaneAnchorDays.map (fun d =>
    (List.range (2 * hw + 1)).map (fun k => (d - (hw : Int) + (k : Int)) * 24))).flatten

/-- The hurricane_dates frame returned as second output: one record
(anchor day, lower_window, upper_window) per anchor. -/
def hurricane_dates (hw : Nat) : List (Int × Int × Int) :=
  hurricaneAnchorDays.map (fun d => (d, -(hw : Int), (hw : Int)))

/-- Value of a column (list of optional values) at an index; out of
range reads give none, mirroring that such reads never occur in the
source. -/
def getO (l : List (Option Val)) (i : Nat) : Option Val := l.getD i none

/-- Forward fill with an explicit carry: each missing entry takes the
most recent present value seen so far (none if there was none yet). -/
def ffillFrom : Option Val → List (Option Val) → List (Option Val)
  | _, [] => []
  | c, none :: t => c :: ffillFrom c t
  | _, some x :: t => some x :: ffillFrom (some x) t

/-- pandas Series.ffill. -/
def ffill (l : List (Option Val)) : List (Option Val) := ffillFrom none l

/-- pandas Series.bfill: each missing entry takes the next present value
after it, if any. -/
def bfill : List (Option Val) → List (Option Val)
  | [] => []
  | some x :: t => some x :: bfill t
  | none :: t =>
    match bfill t with
    | [] => [none]
    | w :: t2 => w :: w :: t2

/-- Ascending sort of the window samples (np.sort). -/
def sortVals (l : List Val) : List Val := l.insertionSort (fun x y => x ≤ y)

/-- Median as computed by the pandas rolling median over a full window:
middle element for odd counts, mean of the two middle elements for even
counts, undefined on an empty sample. -/
def medianQ (l : List Val) : Option Val :=
  let s := sortVals l
  let m := s.length
  if m = 0 then none
  else if m % 2 = 1 then some (s.getD (m / 2) 0)
  else some ((s.getD (m / 2 - 1) 0 + s.getD (m / 2) 0) / 2)

/-- Linear interpolation of a sorted sample at the fractional rank
num / 100: lo is the floor of the rank, hi its ceiling, and the value
is taken (num mod 100) / 100 of the way from the lo entry to the hi
entry. -/
def interpAt (s : List Val) (num : Nat) : Val :=
  let lo := num / 100
  let hi := lo + (if num % 100 = 0 then 0 else 1)
  let frac : Val := mkRat (Int.ofNat (num % 100)) 100
  s.getD lo 0 + frac * (s.getD hi 0 - s.getD lo 0)

/-- np.percentile with linear interpolation: the value at fractional
rank (m - 1) * q / 100 of the sorted sample. -/
def percentileQ (q : Nat) (l : List Val) : Option Val :=
  let s := sortVals l
  let m := s.length
  if m = 0 then none else some (interpAt s ((m - 1) * q))

/-- The lambda passed to rolling apply in the source: 75th minus 25th
percentile of the window. -/
def iqrQ (l : List Val) : Option Val :=
  match percentileQ 75 l, percentileQ 25 l with
  | some a, some b => some (a - b)
  | _, _ => none

/-- Turns a window of optional values into a present sample list exactly
when every entry is present (min_periods equal to the window size). -/
def seqSome : List (Option Val) → Option (List Val)
  | [] => some []
  | none :: _ => none
  | some x :: t => (seqSome t).map (fun ys => x :: ys)

/-- Centered rolling statistic at one position, following the pandas
fixed-window indexer with center set: off = (w - 1) / 2, window rows
i + 1 + off - w .. i + off, result missing unless the whole window lies
inside the series and every sample is present. -/
def rollingAt (f : List Val → Option Val) (w : Nat) (l : List (Option Val)) (i : Nat) :
    Option Val :=
  let off := (w - 1) / 2
  if 1 ≤ w ∧ w ≤ i + 1 + off ∧ i + off < l.length then
    match seqSome ((l.drop (i + 1 + off - w)).take w) with
    | some vs => f vs
    | none => none
  else none

/-- The y column after the hurricane masking assignment: rows whose ds
is one of the hurricane period timestamps are set to missing. -/
def maskedYAt {α : Type} (hw : Nat) (rows : List (Row α)) (i : Nat) : Option Val :=
  match rows[i]? with
  | some r => if (hurricanePeriods hw).contains r.ds then none else r.y
  | none => none

/-- The masked y column as a list. -/
def maskedYCol {α : Type} (hw : Nat) (rows : List (Row α)) : List (Option Val) :=
  (List.range rows.length).map (maskedYAt hw rows)

/-- temp_y from the source: the masked column forward-filled then
back-filled, used only to stabilise the rolling statistics. -/
def tempYCol {α : Type} (hw : Nat) (rows : List (Row α)) : List (Option Val) :=
  bfill (ffill (maskedYCol hw rows))

/-- The rolling_median column at one position. -/
def rollingMedianAt {α : Type} (p : CleaningParams) (rows : List (Row α)) (i : Nat) :
    Option Val :=
  rollingAt medianQ p.window_size (tempYCol p.hurricane_window rows) i

/-- The iqr column at one position. -/
def iqrAt {α : Type} (p : CleaningParams) (rows : List (Row α)) (i : Nat) : Option Val :=
  rollingAt iqrQ p.window_size (tempYCol p.hurricane_window rows) i

/-- The outlier condition of the source with NaN comparison semantics:
a comparison with a missing operand is false. -/
def isOutlierAt (k : Val) : Option Val → Option Val → Option Val → Bool
  | some y, some m, some q => decide (m + k * q < y) || decide (y < m - k * q)
  | _, _, _ => false

/-- The is_outlier column at one position, as the 0/1 integer produced
by astype int. -/
def flagAt {α : Type} (p : CleaningParams) (rows : List (Row α)) (i : Nat) : Nat :=
  if isOutlierAt p.iqr_multiplier (maskedYAt p.hurricane_window rows i)
      (rollingMedianAt p rows i) (iqrAt p rows i) then 1 else 0

/-- y_clean right after the np.where imputation: the rolling median at
flagged rows, the (masked) y elsewhere. -/
def yCleanPreAt {α : Type} (p : CleaningParams) (rows : List (Row α)) (i : Nat) : Option Val :=
  if flagAt p rows i = 1 then rollingMedianAt p rows i
  else maskedYAt p.hurricane_window rows i

/-- The pre-fill y_clean column as a list. -/
def yCleanPreCol {α : Type} (p : CleaningParams) (rows : List (Row α)) : List (Option Val) :=
  (List.range rows.length).map (yCleanPreAt p rows)

/-- The final y column: y_clean forward-filled then back-filled. -/
def yFinalCol {α : Type} (p : CleaningParams) (rows : List (Row α)) : List (Option Val) :=
  bfill (ffill (yCleanPreCol p rows))

/-- clean_train_data, row level: same rows in the same order, ds and the
extra columns untouched, the three diagnostic columns added, and y the
filled y_clean column. -/
def clean_train_data {α : Type} (p : CleaningParams) (rows : List (Row α)) :
    List (CleanRow α) :=
  rows.enum.map (fun ir =>
    ⟨ir.2.ds, ir.2.extra, rollingMedianAt p rows ir.1, iqrAt p rows ir.1,
      flagAt p rows ir.1, getO (yFinalCol p rows) ir.1⟩)

/-- Column-level effect of a pandas column assignment: a new column name
is appended, an existing one is overwritten in place. -/
def assignColName (cols : List String) (c : String) : List String :=
  if cols.contains c then cols else cols ++ [c]

/-- Column names of the frame returned by clean_train_data, mirroring
the column-level effect of each statement of the source: copy, assign
rolling_median, iqr, is_outlier and y_clean, drop y, rename y_clean to
y. -/
def clean_column_names (inputCols : List String) : List String :=
  let c1 := assignColName inputCols "rolling_median"
  let c2 := assignColName c1 "iqr"
  let c3 := assignColName c2 "is_outlier"
  let c4 := assignColName c3 "y_clean"
  let c5 := c4.filter (fun s => s != "y")
  c5.map (fun s => if s = "y_clean" then "y" else s)

/-- split_train_test from the source: the rows with ds strictly before
the cutoff and the rows with ds on or after it, in input order. -/
def split_train_test {a : Type} (rows : List (Row a)) (cutoff : Ts) :
    List (Row a) × List (Row a) :=
  (rows.filter (fun r => decide (r.ds < cutoff)),
   rows.filter (fun r => decide (cutoff ≤ r.ds)))

/-- Elementwise subtraction of two aligned value arrays. -/
def vsub (a b : List Val) : List Val := List.zipWith (fun x y => x - y) a b

/-- Elementwise absolute value of a value array. -/
def vabs (a : List Val) : List Val := a.map (fun x => |x|)

/-- Elementwise division of two aligned value arrays. -/
def vdiv (a b : List Val) : List Val := List.zipWith (fun x y => x / y) a b

/-- numpy ndarray mean: sum divided by length. -/
def vmean (l : List Val) : Val := l.sum / (l.length : Val)

/-- get_MAPE from model_utils: the train and test MAPE percentages plus
the two absolute residual arrays, computed exactly as the source does
with vectorised operations. -/
def get_MAPE (actual_train actual_test predicted_train predicted_test : List Val) :
    Val × Val × List Val × List Val :=
  (vmean (vdiv (vabs (vsub actual_train predicted_train)) actual_train) * 100,
   vmean (vdiv (vabs (vsub actual_test predicted_test)) actual_test) * 100,
   vabs (vsub actual_train predicted_train),
   vabs (vsub actual_test predicted_test))

/-- The MAPE formula in the words of the specification: the average over
all paired points of the absolute difference divided by the actual,
expressed as a percentage. Declared separately to compare the source
computation against the stated formula. -/
def mapeSpec (actual predicted : List Val) : Val :=
  ((List.zipWith (fun x y => |x - y| / x) actual predicted).sum / (actual.length : Val)) * 100

/-- Joining the project root with a relative path (the pathlib slash
operator). -/
def resolvePath (root rel : String) : String := root ++ "/" ++ rel

/-- One parsed CSV record with the raw column names of the input file. -/
structure RawRecord where
  Datetime : Ts
  PJME_MW : Val
deriving DecidableEq

/-- The rename applied after read_csv: Datetime to ds, PJME_MW to y. -/
def renameRawColumns (r : RawRecord) : Row Unit :=
  ⟨r.Datetime, some r.PJME_MW, ()⟩

/-- load_data from the source, with the filesystem abstracted as an
existence test and a CSV reader: resolve the relative path against the
project root, fail with a not-found error naming the resolved path when
the file does not exist, else read and rename. -/
def load_data (ex : String → Bool) (readCsv : String → List RawRecord)
    (root rel : String) : Except String (List (Row Unit)) :=
  let full_path := resolvePath root rel
  if ex full_path then Except.ok ((readCsv full_path).map renameRawColumns)
  else Except.error ("Data file not found at: " ++ full_path)

/-- A cell of a dynamically typed pandas column. -/
inductive Cell where
  | num (q : Val)
  | cnat (n : Nat)
  | str (s : String)
  | ts (t : Ts)
  | nan
deriving DecidableEq

/-- A frame as an ordered association list of named columns, used for
create_features where the effect on the column structure of the
received object is what matters. -/
abbrev CFrame := List (String × List Cell)

/-- Reading a column by name. -/
def getColumn (df : CFrame) (c : String) : List Cell :=
  match df.find? (fun p => p.1 == c) with
  | some p => p.2
  | none => []

/-- Column assignment: overwrite in place when the name is present,
append a new column otherwise. -/
def setColumn (df : CFrame) (c : String) (col : List Cell) : CFrame :=
  if df.any (fun p => p.1 == c) then
    df.map (fun p => if p.1 == c then (c, col) else p)
  else df ++ [(c, col)]

/-- pandas dt.hour of an hourly timestamp. -/
def dtHour : Cell → Cell
  | .ts t => .cnat (t % 24).toNat
  | _ => .nan

/-- pandas dt.dayofweek (Monday is 0); 1970-01-01 was a Thursday, hence
the offset 3. -/
def dtDayofweek : Cell → Cell
  | .ts t => .cnat ((Int.fdiv t 24 + 3) % 7).toNat
  | _ => .nan

/-- The quarters dict of the source. -/
def quartersDict : Nat → Option String
  | 1 => some "Q1_Jan-Mar"
  | 2 => some "Q2_Apr-Jun"
  | 3 => some "Q3_Jul-Sep"
  | 4 => some "Q4_Oct-Dec"
  | _ => none

/-- isin [5, 6] followed by astype int, applied to the day_of_week
column. -/
def isWeekendCell : Cell → Cell
  | .cnat n => .cnat (if n = 5 ∨ n = 6 then 1 else 0)
  | _ => .nan

/-- Abstract interfaces for the numeric and calendar primitives used by
create_features: quarterOf stands for the pandas dt.quarter Gregorian
computation, sinTab and cosTab for the values np.sin and np.cos take on
the 24 scaled hour angles 2 pi h / 24. They are parameters because
floating point sine and the full calendar lie outside the embedding; no
claim depends on their values. -/
structure FeatureMaps where
  quarterOf : Ts → Nat
  sinTab : Nat → Val
  cosTab : Nat → Val

/-- dt.quarter followed by the quarters dict map; a pandas map yields
NaN on keys absent from the dict. -/
def dtQuarter (quarterOf : Ts → Nat) : Cell → Cell
  | .ts t =>
    match quartersDict (quarterOf t) with
    | some s => .str s
    | none => .nan
  | _ => .nan

/-- The cyclical encoding columns, as a table lookup on the hour
column. -/
def cyclicalCell (tab : Nat → Val) : Cell → Cell
  | .cnat h => .num (tab h)
  | _ => .nan

/-- The effect of create_features on the frame value: six column
assignments in source order, reading ds, then the freshly written
day_of_week and hour columns. -/
def create_features_frame (fm : FeatureMaps) (df : CFrame) : CFrame :=
  let df1 := setColumn df "hour" ((getColumn df "ds").map dtHour)
  let df2 := setColumn df1 "day_of_week" ((getColumn df1 "ds").map dtDayofweek)
  let df3 := setColumn df2 "is_weekend" ((getColumn df2 "day_of_week").map isWeekendCell)
  let df4 := setColumn df3 "quarter" ((getColumn df3 "ds").map (dtQuarter fm.quarterOf))
  let df5 := setColumn df4 "hour_sin" ((getColumn df4 "hour").map (cyclicalCell fm.sinTab))
  setColumn df5 "hour_cos" ((getColumn df5 "hour").map (cyclicalCell fm.cosTab))

/-- The mutable store of frames: a Python object reference is an index
into the heap and mutation is explicit state passing. -/
abbrev Heap := List CFrame

/-- create_features with the DataFrame of the caller passed by
reference: the feature columns are written into the referenced frame
and the same reference is returned. -/
def create_features (fm : FeatureMaps) (h : Heap) (r : Nat) : Heap × Nat :=
  (h.set r (create_features_frame fm (h.getD r [])), r)

/-- Concrete worked example: five hourly-resolution rows around the
2012-10-29 anchor. Day 15639 is 2012-10-26 (outside the window for
hurricane_window 2), day 15640 is 2012-10-27 (inside). Row 2 sits at
the midnight timestamp of day 15640 and row 3 one hour later. -/
def exRows : List (Row Unit) :=
  [⟨375336, some 10, ()⟩, ⟨375348, some 100, ()⟩, ⟨375360, some 77, ()⟩,
   ⟨375361, some 30, ()⟩, ⟨375362, some 40, ()⟩]

/-- Parameters for the worked example. -/
def exParams : CleaningParams := ⟨5, 3, 2⟩

/-- Input with a missing value away from every hurricane window, for the
idempotence claim. -/
def exRows8 : List (Row Unit) :=
  [⟨0, some 10, ()⟩, ⟨1, none, ()⟩, ⟨2, some 20, ()⟩]

/-- Parameters with a large multiplier under which no point is
flagged. -/
def exParams8 : CleaningParams := ⟨3, 1000, 2⟩

/-- A one-row series whose only value is missing. -/
def exRowsAllMissing : List (Row Unit) := [⟨0, none, ()⟩]

/-- Rows for the split example. -/
def exRows6 : List (Row Unit) := [⟨3, some 1, ()⟩, ⟨5, some 2, ()⟩, ⟨7, some 3, ()⟩]

/-- The first row of the split example. -/
def exR6 : Row Unit := ⟨3, some 1, ()⟩

/-- The six feature column names written by create_features. -/
def featureNames : List String :=
  ["hour", "day_of_week", "is_weekend", "quarter", "hour_sin", "hour_cos"]

/-- A two-frame heap for the create_features witness. -/
def exHeap : Heap := [[("ds", [Cell.ts 0])], []]

/-- Concrete feature primitives for the witness. -/
def exFM : FeatureMaps := ⟨fun _ => 1, fun _ => 0, fun _ => 0⟩

theorem getO_cons_zero (a : Option Val) (l : List (Option Val)) : getO (a :: l) 0 = a := rfl

theorem getO_cons_succ (a : Option Val) (l : List (Option Val)) (i : Nat) :
    getO (a :: l) (i + 1) = getO l i := rfl

theorem getO_isSome_lt {l : List (Option Val)} {i : Nat} (h : (getO l i).isSome = true) :
    i < l.length := by
  by_contra hlt
  push_neg at hlt
  rw [getO, List.getD_eq_default _ _ hlt] at h
  simp at h

theorem ffillFrom_length (c : Option Val) (l : List (Option Val)) :
    (ffillFrom c l).length = l.length := by
  induction l generalizing c with
  | nil => rfl
  | cons a t ih => cases a <;> simp [ffillFrom, ih]

theorem ffill_length (l : List (Option Val)) : (ffill l).length = l.length :=
  ffillFrom_length none l

theorem bfill_length (l : List (Option Val)) : (bfill l).length = l.length := by
  induction l with
  | nil => rfl
  | cons a t ih =>
    cases a with
    | some x => simp [bfill, ih]
    | none =>
      cases h : bfill t with
      | nil =>
        have ht : t.length = 0 := by rw [← ih, h]; rfl
        simp [bfill, h, ht]
      | cons w t2 =>
        have hlen : t2.length + 1 = t.length := by rw [← ih, h]; rfl
        simp [bfill, h]
        omega

theorem ffillFrom_getO_some (c : Option Val) (l : List (Option Val)) (i : Nat) (v : Val)
    (h : getO l i = some v) : getO (ffillFrom c l) i = some v := by
  induction l generalizing c i with
  | nil => simp [getO] at h
  | cons a t ih =>
    cases i with
    | zero =>
      rw [getO_cons_zero] at h
      subst h
      rfl
    | succ i =>
      rw [getO_cons_succ] at h
      cases a with
      | none =>
        rw [show ffillFrom c (none :: t) = c :: ffillFrom c t from rfl, getO_cons_succ]
        exact ih c i h
      | some x =>
        rw [show ffillFrom c (some x :: t) = some x :: ffillFrom (some x) t from rfl,
          getO_cons_succ]
        exact ih (some x) i h

theorem bfill_getO_some (l : List (Option Val)) (i : Nat) (v : Val)
    (h : getO l i = some v) : getO (bfill l) i = some v := by
  induction l generalizing i with
  | nil => simp [getO] at h
  | cons a t ih =>
    cases a with
    | some x =>
      cases i with
      | zero => rw [getO_cons_zero] at h; rw [show bfill (some x :: t) = some x :: bfill t from rfl, getO_cons_zero]; exact h
      | succ i =>
        rw [getO_cons_succ] at h
        rw [show bfill (some x :: t) = some x :: bfill t from rfl, getO_cons_succ]
        exact ih i h
    | none =>
      cases i with
      | zero => rw [getO_cons_zero] at h; exact absurd h (by simp)
      | succ i =>
        rw [getO_cons_succ] at h
        cases hbt : bfill t with
        | nil =>
          have ht : t.length = 0 := by rw [← bfill_length t, hbt]; rfl
          have : i < t.length := getO_isSome_lt (by simp [h])
          omega
        | cons w t2 =>
          have : getO (bfill t) i = some v := ih i h
          rw [show bfill (none :: t) = match bfill t with
              | [] => [none]
              | w :: t2 => w :: w :: t2 from rfl, hbt]
          rw [hbt] at this
          rw [getO_cons_succ]
          exact this

theorem ffillFrom_isSome (c : Option Val) (l : List (Option Val)) (i : Nat)
    (hi : i < l.length)
    (h : c.isSome = true ∨ ∃ j, j ≤ i ∧ (getO l j).isSome = true) :
    (getO (ffillFrom c l) i).isSome = true := by
  induction l generalizing c i with
  | nil => simp at hi
  | cons a t ih =>
    cases a with
    | some x =>
      cases i with
      | zero =>
        rw [show ffillFrom c (some x :: t) = some x :: ffillFrom (some x) t from rfl,
          getO_cons_zero]
        rfl
      | succ i =>
        rw [show ffillFrom c (some x :: t) = some x :: ffillFrom (some x) t from rfl,
          getO_cons_succ]
        exact ih (some x) i (by simpa using hi) (Or.inl rfl)
    | none =>
      cases i with
      | zero =>
        rcases h with hc | ⟨j, hj, hsome⟩
        · rw [show ffillFrom c (none :: t) = c :: ffillFrom c t from rfl, getO_cons_zero]
          exact hc
        · have hj0 : j = 0 := Nat.le_zero.mp hj
          subst hj0
          rw [getO_cons_zero] at hsome
          simp at hsome
      | succ i =>
        rw [show ffillFrom c (none :: t) = c :: ffillFrom c t from rfl, getO_cons_succ]
        apply ih c i (by simpa using hi)
        rcases h with hc | ⟨j, hj, hsome⟩
        · exact Or.inl hc
        · cases j with
          | zero =>
            rw [getO_cons_zero] at hsome
            simp at hsome
          | succ j =>
            rw [getO_cons_succ] at hsome
            exact Or.inr ⟨j, Nat.le_of_succ_le_succ hj, hsome⟩

theorem bfill_isSome_before (l : List (Option Val)) (i j : Nat)
    (hij : i ≤ j) (hj : (getO l j).isSome = true) :
    (getO (bfill l) i).isSome = true := by
  induction l generalizing i j with
  | nil => exact absurd (getO_isSome_lt hj) (by simp)
  | cons a t ih =>
    cases a with
    | some x =>
      cases i with
      | zero =>
        rw [show bfill (some x :: t) = some x :: bfill t from rfl, getO_cons_zero]
        rfl
      | succ i =>
        cases j with
        | zero => omega
        | succ j =>
          rw [getO_cons_succ] at hj
          rw [show bfill (some x :: t) = some x :: bfill t from rfl, getO_cons_succ]
          exact ih i j (Nat.le_of_succ_le_succ hij) hj
    | none =>
      cases j with
      | zero =>
        rw [getO_cons_zero] at hj
        simp at hj
      | succ j =>
        rw [getO_cons_succ] at hj
        cases hbt : bfill t with
        | nil =>
          have ht : t.length = 0 := by rw [← bfill_length t, hbt]; rfl
          have := getO_isSome_lt hj
          omega
        | cons w t2 =>
          rw [show bfill (none :: t) = match bfill t with
              | [] => [none]
              | w :: t2 => w :: w :: t2 from rfl, hbt]
          cases i with
          | zero =>
            have h0 : (getO (bfill t) 0).isSome = true := ih 0 j (Nat.zero_le j) hj
            rw [hbt] at h0
            rw [getO_cons_zero] at h0 ⊢
            exact h0
          | succ i =>
            have hi : (getO (bfill t) i).isSome = true :=
              ih i j (Nat.le_of_succ_le_succ hij) hj
            rw [hbt] at hi
            rw [getO_cons_succ]
            exact hi

theorem fill_complete (l : List (Option Val)) (j i : Nat)
    (hj : (getO l j).isSome = true) (hi : i < l.length) :
    (getO (bfill (ffill l)) i).isSome = true := by
  rcases Nat.le_total j i with hji | hij
  · have h1 : (getO (ffill l) i).isSome = true :=
      ffillFrom_isSome none l i hi (Or.inr ⟨j, hji, hj⟩)
    obtain ⟨v, hv⟩ := Option.isSome_iff_exists.mp h1
    have h2 := bfill_getO_some (ffill l) i v hv
    simp [h2]
  · obtain ⟨v, hv⟩ := Option.isSome_iff_exists.mp hj
    have h1 : getO (ffill l) j = some v := ffillFrom_getO_some none l j v hv
    exact bfill_isSome_before (ffill l) i j hij (by simp [h1])

theorem getO_range_map {n : Nat} (f : Nat → Option Val) (i : Nat) (hi : i < n) :
    getO ((List.range n).map f) i = f i := by
  simp [getO, List.getD, hi]

theorem yCleanPreCol_length {a : Type} (p : CleaningParams) (rows : List (Row a)) :
    (yCleanPreCol p rows).length = rows.length := by
  simp [yCleanPreCol]

theorem getO_yCleanPreCol {a : Type} (p : CleaningParams) (rows : List (Row a)) (i : Nat)
    (hi : i < rows.length) : getO (yCleanPreCol p rows) i = yCleanPreAt p rows i :=
  getO_range_map _ i hi

theorem yFinalCol_length {a : Type} (p : CleaningParams) (rows : List (Row a)) :
    (yFinalCol p rows).length = rows.length := by
  rw [yFinalCol, bfill_length, ffill_length, yCleanPreCol_length]

theorem isOutlierAt_true_iff (k : Val) (y m q : Option Val) :
    isOutlierAt k y m q = true ↔
      ∃ a b c, y = some a ∧ m = some b ∧ q = some c ∧
        (b + k * c < a ∨ a < b - k * c) := by
  cases y <;> cases m <;> cases q <;> simp [isOutlierAt]

theorem flagAt_one_iff {a : Type} (p : CleaningParams) (rows : List (Row a)) (i : Nat) :
    flagAt p rows i = 1 ↔
      isOutlierAt p.iqr_multiplier (maskedYAt p.hurricane_window rows i)
        (rollingMedianAt p rows i) (iqrAt p rows i) = true := by
  by_cases h : isOutlierAt p.iqr_multiplier (maskedYAt p.hurricane_window rows i)
      (rollingMedianAt p rows i) (iqrAt p rows i) = true
  · simp [flagAt, h]
  · simp [flagAt, h]

theorem flagAt_zero_iff {a : Type} (p : CleaningParams) (rows : List (Row a)) (i : Nat) :
    flagAt p rows i = 0 ↔
      isOutlierAt p.iqr_multiplier (maskedYAt p.hurricane_window rows i)
        (rollingMedianAt p rows i) (iqrAt p rows i) = false := by
  cases h : isOutlierAt p.iqr_multiplier (maskedYAt p.hurricane_window rows i)
      (rollingMedianAt p rows i) (iqrAt p rows i) <;> simp [flagAt, h]

theorem flagAt_cases {a : Type} (p : CleaningParams) (rows : List (Row a)) (i : Nat) :
    flagAt p rows i = 0 ∨ flagAt p rows i = 1 := by
  by_cases h : isOutlierAt p.iqr_multiplier (maskedYAt p.hurricane_window rows i)
      (rollingMedianAt p rows i) (iqrAt p rows i) = true
  · exact Or.inr (by simp [flagAt, h])
  · exact Or.inl (by simp [flagAt, h])

theorem flag_one_median_some {a : Type} (p : CleaningParams) (rows : List (Row a)) (i : Nat)
    (h : flagAt p rows i = 1) :
    ∃ b, rollingMedianAt p rows i = some b := by
  obtain ⟨x, b, c, _, hm, _, _⟩ := (isOutlierAt_true_iff _ _ _ _).mp ((flagAt_one_iff p rows i).mp h)
  exact ⟨b, hm⟩

theorem flag_one_masked_some {a : Type} (p : CleaningParams) (rows : List (Row a)) (i : Nat)
    (h : flagAt p rows i = 1) :
    ∃ v, maskedYAt p.hurricane_window rows i = some v := by
  obtain ⟨x, b, c, hy, _, _, _⟩ := (isOutlierAt_true_iff _ _ _ _).mp ((flagAt_one_iff p rows i).mp h)
  exact ⟨x, hy⟩

theorem yCleanPreAt_flag_one {a : Type} (p : CleaningParams) (rows : List (Row a)) (i : Nat)
    (h : flagAt p rows i = 1) :
    yCleanPreAt p rows i = rollingMedianAt p rows i := by
  simp [yCleanPreAt, h]

theorem yCleanPreAt_flag_zero {a : Type} (p : CleaningParams) (rows : List (Row a)) (i : Nat)
    (h : flagAt p rows i = 0) :
    yCleanPreAt p rows i = maskedYAt p.hurricane_window rows i := by
  simp [yCleanPreAt, h]

theorem yFinal_of_pre_some {a : Type} (p : CleaningParams) (rows : List (Row a)) (i : Nat)
    (v : Val) (hi : i < rows.length) (h : yCleanPreAt p rows i = some v) :
    getO (yFinalCol p rows) i = some v := by
  have h1 : getO (yCleanPreCol p rows) i = some v := by
    rw [getO_yCleanPreCol p rows i hi]; exact h
  rw [yFinalCol]
  exact bfill_getO_some _ i v (ffillFrom_getO_some none _ i v h1)

theorem yCleanPreAt_none_iff {a : Type} (p : CleaningParams) (rows : List (Row a)) (i : Nat) :
    yCleanPreAt p rows i = none ↔ maskedYAt p.hurricane_window rows i = none := by
  rcases flagAt_cases p rows i with h0 | h1
  · rw [yCleanPreAt_flag_zero p rows i h0]
  · rw [yCleanPreAt_flag_one p rows i h1]
    obtain ⟨b, hb⟩ := flag_one_median_some p rows i h1
    obtain ⟨v, hv⟩ := flag_one_masked_some p rows i h1
    simp [hb, hv]

theorem sortVals_sorted (l : List Val) : List.Sorted (fun x y => x ≤ y) (sortVals l) :=
  List.sorted_insertionSort _ l

theorem sortVals_length (l : List Val) : (sortVals l).length = l.length :=
  (List.perm_insertionSort _ l).length_eq

theorem sorted_getD_mono (s : List Val) (hs : List.Sorted (fun x y => x ≤ y) s)
    (i j : Nat) (hij : i ≤ j) (hj : j < s.length) : s.getD i 0 ≤ s.getD j 0 := by
  have hi : i < s.length := Nat.lt_of_le_of_lt hij hj
  rw [List.getD_eq_getElem s 0 hi, List.getD_eq_getElem s 0 hj]
  have := hs.rel_get_of_le (show (⟨i, hi⟩ : Fin s.length) ≤ ⟨j, hj⟩ from hij)
  simpa using this

theorem mkRat_ofNat_div (a : Nat) : mkRat (Int.ofNat a) 100 = (a : Val) / 100 := by
  rw [Rat.mkRat_eq_div]
  norm_num

theorem frac_nonneg (n : Nat) : (0 : Val) ≤ mkRat (Int.ofNat (n % 100)) 100 := by
  rw [mkRat_ofNat_div]
  positivity

theorem frac_lt_one (n : Nat) : mkRat (Int.ofNat (n % 100)) 100 < (1 : Val) := by
  rw [mkRat_ofNat_div]
  rw [div_lt_one (by norm_num)]
  have h : n % 100 < 100 := Nat.mod_lt _ (by norm_num)
  exact_mod_cast h

theorem interpAt_le (s : List Val) (hs : List.Sorted (fun x y => x ≤ y) s) (n : Nat)
    (h : n / 100 + (if n % 100 = 0 then 0 else 1) < s.length) :
    interpAt s n ≤ s.getD (n / 100 + (if n % 100 = 0 then 0 else 1)) 0 := by
  have hgap : s.getD (n / 100) 0 ≤ s.getD (n / 100 + (if n % 100 = 0 then 0 else 1)) 0 :=
    sorted_getD_mono s hs _ _ (Nat.le_add_right _ _) h
  have hf0 := frac_nonneg n
  have hf1 := frac_lt_one n
  simp only [interpAt]
  nlinarith [hgap, hf0, hf1]

theorem le_interpAt (s : List Val) (hs : List.Sorted (fun x y => x ≤ y) s) (n : Nat)
    (h : n / 100 + (if n % 100 = 0 then 0 else 1) < s.length) :
    s.getD (n / 100) 0 ≤ interpAt s n := by
  have hgap : s.getD (n / 100) 0 ≤ s.getD (n / 100 + (if n % 100 = 0 then 0 else 1)) 0 :=
    sorted_getD_mono s hs _ _ (Nat.le_add_right _ _) h
  have hf0 := frac_nonneg n
  have hf1 := frac_lt_one n
  simp only [interpAt]
  nlinarith [hgap, hf0, hf1]

theorem interpAt_mono (s : List Val) (hs : List.Sorted (fun x y => x ≤ y) s)
    (n1 n2 : Nat) (h12 : n1 ≤ n2) (hub : n2 ≤ (s.length - 1) * 100) (hne : s.length ≠ 0) :
    interpAt s n1 ≤ interpAt s n2 := by
  have hm : 1 ≤ s.length := Nat.one_le_iff_ne_zero.mpr hne
  have hcancel : (s.length - 1) * 100 / 100 = s.length - 1 :=
    Nat.mul_div_cancel _ (by norm_num)
  have hlo2 : n2 / 100 < s.length := by
    have h : n2 / 100 ≤ (s.length - 1) * 100 / 100 := Nat.div_le_div_right hub
    rw [hcancel] at h
    omega
  have hlo1le : n1 / 100 ≤ n2 / 100 := Nat.div_le_div_right h12
  have hlo1 : n1 / 100 < s.length := Nat.lt_of_le_of_lt hlo1le hlo2
  have hhiB : ∀ n, n ≤ (s.length - 1) * 100 → ¬ n % 100 = 0 → n / 100 + 1 < s.length := by
    intro n hn hmod
    have hne2 : n ≠ (s.length - 1) * 100 := by
      intro he
      apply hmod
      rw [he]
      exact Nat.mul_mod_left _ _
    have hlt : n < (s.length - 1) * 100 := lt_of_le_of_ne hn hne2
    have hdl : n / 100 < (s.length - 1) * 100 / 100 :=
      Nat.div_lt_div_of_lt_of_dvd (dvd_mul_left 100 (s.length - 1)) hlt
    rw [hcancel] at hdl
    omega
  have hhi1 : n1 / 100 + (if n1 % 100 = 0 then 0 else 1) < s.length := by
    by_cases h1m : n1 % 100 = 0
    · simpa [h1m] using hlo1
    · rw [if_neg h1m]
      exact hhiB n1 (le_trans h12 hub) h1m
  have hhi2 : n2 / 100 + (if n2 % 100 = 0 then 0 else 1) < s.length := by
    by_cases h2m : n2 % 100 = 0
    · simpa [h2m] using hlo2
    · rw [if_neg h2m]
      exact hhiB n2 hub h2m
  by_cases hsplit : n1 / 100 < n2 / 100
  · have k1 := interpAt_le s hs n1 hhi1
    have k2 : s.getD (n1 / 100 + (if n1 % 100 = 0 then 0 else 1)) 0 ≤ s.getD (n2 / 100) 0 := by
      apply sorted_getD_mono s hs _ _ ?_ hlo2
      by_cases h1m : n1 % 100 = 0 <;> simp [h1m] <;> omega
    have k3 := le_interpAt s hs n2 hhi2
    linarith
  · have hloeq : n1 / 100 = n2 / 100 := Nat.le_antisymm hlo1le (Nat.not_lt.mp hsplit)
    by_cases h2m : n2 % 100 = 0
    · have heq : n1 = n2 := by omega
      rw [heq]
    · have hlt2 : n2 / 100 + 1 < s.length := by
        have := hhi2
        rwa [if_neg h2m] at this
      have hgap : s.getD (n2 / 100) 0 ≤ s.getD (n2 / 100 + 1) 0 :=
        sorted_getD_mono s hs _ _ (Nat.le_add_right _ _) hlt2
      by_cases h1m : n1 % 100 = 0
      · have hz : mkRat (Int.ofNat (n1 % 100)) 100 = 0 := by
          rw [h1m]
          rfl
        have hf2 := frac_nonneg n2
        simp only [interpAt, if_pos h1m, if_neg h2m, hloeq, hz]
        nlinarith [hgap, hf2]
      · have hmle : n1 % 100 ≤ n2 % 100 := by omega
        have hfle : mkRat (Int.ofNat (n1 % 100)) 100 ≤ mkRat (Int.ofNat (n2 % 100)) 100 := by
          rw [mkRat_ofNat_div, mkRat_ofNat_div]
          gcongr
      -- frac comparison done; combine within the common bracket
        simp only [interpAt, if_neg h1m, if_neg h2m, hloeq]
        nlinarith [hgap, hfle, frac_nonneg n1, frac_lt_one n2]

theorem iqrQ_nonneg (l : List Val) (q : Val) (h : iqrQ l = some q) : 0 ≤ q := by
  unfold iqrQ at h
  cases h75 : percentileQ 75 l with
  | none => rw [h75] at h; simp at h
  | some a =>
    cases h25 : percentileQ 25 l with
    | none => rw [h75, h25] at h; simp at h
    | some b =>
      rw [h75, h25] at h
      simp only [Option.some.injEq] at h
      by_cases hm : (sortVals l).length = 0
      · unfold percentileQ at h75
        simp [hm] at h75
      · unfold percentileQ at h75 h25
        simp only [hm, if_false, Option.some.injEq, ite_false] at h75 h25
        have hmono := interpAt_mono (sortVals l) (sortVals_sorted l)
          (((sortVals l).length - 1) * 25) (((sortVals l).length - 1) * 75)
          (Nat.mul_le_mul_left _ (by norm_num))
          (Nat.mul_le_mul_left _ (by norm_num)) hm
        rw [h75, h25] at hmono
        linarith [hmono, h.symm ▸ le_refl q]

theorem rollingAt_some {f : List Val → Option Val} {w : Nat} {l : List (Option Val)}
    {i : Nat} {v : Val} (h : rollingAt f w l i = some v) : ∃ vs, f vs = some v := by
  simp only [rollingAt] at h
  by_cases hc : 1 ≤ w ∧ w ≤ i + 1 + (w - 1) / 2 ∧ i + (w - 1) / 2 < l.length
  · rw [if_pos hc] at h
    cases hseq : seqSome ((l.drop (i + 1 + (w - 1) / 2 - w)).take w) with
    | none => rw [hseq] at h; exact absurd h (by simp)
    | some vs => rw [hseq] at h; exact ⟨vs, h⟩
  · rw [if_neg hc] at h
    exact absurd h (by simp)

theorem iqrAt_nonneg {a : Type} (p : CleaningParams) (rows : List (Row a)) (i : Nat)
    (q : Val) (h : iqrAt p rows i = some q) : 0 ≤ q := by
  obtain ⟨vs, hvs⟩ := rollingAt_some h
  exact iqrQ_nonneg vs q hvs

theorem clean_train_data_length {a : Type} (p : CleaningParams) (rows : List (Row a)) :
    (clean_train_data p rows).length = rows.length := by
  simp [clean_train_data]

theorem clean_train_data_map_ds {a : Type} (p : CleaningParams) (rows : List (Row a)) :
    (clean_train_data p rows).map (fun r => r.ds) = rows.map (fun r => r.ds) := by
  calc (clean_train_data p rows).map (fun r => r.ds)
      = rows.enum.map (fun ir => ir.2.ds) := by
        rw [clean_train_data, List.map_map]
        rfl
    _ = (rows.enum.map Prod.snd).map (fun r => r.ds) := by
        rw [List.map_map]
        rfl
    _ = rows.map (fun r => r.ds) := by rw [List.enum_map_snd]

theorem clean_train_data_map_extra {a : Type} (p : CleaningParams) (rows : List (Row a)) :
    (clean_train_data p rows).map (fun r => r.extra) = rows.map (fun r => r.extra) := by
  calc (clean_train_data p rows).map (fun r => r.extra)
      = rows.enum.map (fun ir => ir.2.extra) := by
        rw [clean_train_data, List.map_map]
        rfl
    _ = (rows.enum.map Prod.snd).map (fun r => r.extra) := by
        rw [List.map_map]
        rfl
    _ = rows.map (fun r => r.extra) := by rw [List.enum_map_snd]

/-- Claim C1, evaluated at the failing input: in the worked example the
row at index 3 has timestamp 375361 (2012-10-27 01:00), whose calendar
date 15640 lies within hurricane_window = 2 days of the 2012-10-29
anchor (day 15642), yet the masking step leaves its value in place
(the date-range membership test only matches exact midnight timestamps)
and the final cleaned value equals the untouched raw value 30. -/
theorem C1_hurricane_mask_misses_intraday_rows :
    (15642 - 2 ≤ dateOf 375361 ∧ dateOf 375361 ≤ 15642 + 2) ∧
    exRows.getD 3 ⟨0, none, ()⟩ = ⟨375361, some 30, ()⟩ ∧
    maskedYAt exParams.hurricane_window exRows 3 = some 30 ∧
    getO (yFinalCol exParams exRows) 3 = some 30 :=
  ⟨by decide, rfl, by with_unfolding_all decide, by with_unfolding_all decide⟩

/-- Claim C2 counterexample: in the worked example row 2 is hurricane
masked (its value is missing at flagging time) and the rolling median
there is defined and equal to 40, yet the final value is 100, the
forward-filled neighbour: a masked row is not imputed with the rolling
median, and the fill is not restricted to rows whose rolling statistics
are undefined. -/
theorem C2_masked_row_not_imputed_with_median :
    maskedYAt exParams.hurricane_window exRows 2 = none ∧
    exRows.getD 2 ⟨0, none, ()⟩ = ⟨375360, some 77, ()⟩ ∧
    rollingMedianAt exParams exRows 2 = some 40 ∧
    flagAt exParams exRows 2 = 0 ∧
    getO (yFinalCol exParams exRows) 2 = some 100 :=
  ⟨by with_unfolding_all decide, rfl, by with_unfolding_all decide,
    by with_unfolding_all decide, by with_unfolding_all decide⟩

/-- Claim C2 (amended): the final value equals the rolling median at
every flagged row and equals the masked value at every unflagged row
whose value is present; the imputed column is missing exactly at the
rows whose value is missing after hurricane masking, and those rows
(not the rows with undefined rolling statistics) are the ones resolved
by the final forward and backward fill. -/
theorem C2_final_value_rule {a : Type} (p : CleaningParams) (rows : List (Row a)) (i : Nat)
    (hi : i < rows.length) :
    (flagAt p rows i = 1 →
      ∃ m, rollingMedianAt p rows i = some m ∧ getO (yFinalCol p rows) i = some m) ∧
    (∀ v, flagAt p rows i = 0 → maskedYAt p.hurricane_window rows i = some v →
      getO (yFinalCol p rows) i = some v) ∧
    (yCleanPreAt p rows i = none ↔ maskedYAt p.hurricane_window rows i = none) := by
  refine ⟨?_, ?_, yCleanPreAt_none_iff p rows i⟩
  · intro h1
    obtain ⟨m, hm⟩ := flag_one_median_some p rows i h1
    refine ⟨m, hm, ?_⟩
    apply yFinal_of_pre_some p rows i m hi
    rw [yCleanPreAt_flag_one p rows i h1, hm]
  · intro v h0 hv
    apply yFinal_of_pre_some p rows i v hi
    rw [yCleanPreAt_flag_zero p rows i h0, hv]

/-- Witness for claim C2: the amended rule applied at row 0 of the
worked example. -/
theorem C2_final_value_rule_witness :
    getO (yFinalCol exParams exRows) 0 = some 10 :=
  (C2_final_value_rule exParams exRows 0 (by decide)).2.1 10
    (by with_unfolding_all decide) (by with_unfolding_all decide)

/-- Claim C3 counterexample: a non-empty chronologically sorted one-row
series whose only value is missing is returned with its value still
missing, so the cleaned value column is not always free of missing
values. -/
theorem C3_all_missing_counterexample :
    exRowsAllMissing.length = 1 ∧
    (clean_train_data exParams exRowsAllMissing).map (fun r => r.y) = [none] := by
  with_unfolding_all decide

/-- Claim C3 (amended): the cleaned frame always has the same length and
the same timestamp column as the input, and as soon as at least one
entry of the imputed column is present before the final fill, the final
value column has no missing values. -/
theorem C3_shape_preserved_and_filled {a : Type} (p : CleaningParams) (rows : List (Row a))
    (j : Nat) (hj : (getO (yCleanPreCol p rows) j).isSome = true) :
    ((clean_train_data p rows).length = rows.length ∧
      (clean_train_data p rows).map (fun r => r.ds) = rows.map (fun r => r.ds)) ∧
    ∀ r, r ∈ clean_train_data p rows → r.y.isSome = true := by
  refine ⟨⟨clean_train_data_length p rows, clean_train_data_map_ds p rows⟩, ?_⟩
  intro r hr
  obtain ⟨ir, hir, hrr⟩ := List.mem_map.mp hr
  have hlt : ir.1 < rows.length := List.fst_lt_of_mem_enum hir
  have hlen : ir.1 < (yCleanPreCol p rows).length := by
    rw [yCleanPreCol_length]
    exact hlt
  have hfill := fill_complete (yCleanPreCol p rows) j ir.1 hj hlen
  rw [← hrr]
  simpa [yFinalCol] using hfill

/-- Witness for claim C3: shape preservation and fill at the worked
example. -/
theorem C3_shape_preserved_and_filled_witness :
    ((clean_train_data exParams exRows).length = exRows.length ∧
      (clean_train_data exParams exRows).map (fun r => r.ds) = exRows.map (fun r => r.ds)) ∧
    ∀ r, r ∈ clean_train_data exParams exRows → r.y.isSome = true :=
  C3_shape_preserved_and_filled exParams exRows 0 (by with_unfolding_all decide)

/-- Claim C5: a point is flagged exactly when its value at flagging time
and both rolling statistics are present and the value lies strictly
outside median plus or minus multiplier times iqr; a missing
(hurricane-masked) value is never flagged; a value exactly at either
boundary is not flagged (the iqr of the code is nonnegative, and the
multiplier is nonnegative as the specification requires a positive
one). -/
theorem C5_outlier_flag_iff {a : Type} (p : CleaningParams) (rows : List (Row a)) (i : Nat)
    (hk : 0 ≤ p.iqr_multiplier) :
    (flagAt p rows i = 1 ↔
      ∃ y m q, maskedYAt p.hurricane_window rows i = some y ∧
        rollingMedianAt p rows i = some m ∧ iqrAt p rows i = some q ∧
        (m + p.iqr_multiplier * q < y ∨ y < m - p.iqr_multiplier * q)) ∧
    (maskedYAt p.hurricane_window rows i = none → flagAt p rows i = 0) ∧
    (∀ m q, rollingMedianAt p rows i = some m → iqrAt p rows i = some q →
      (maskedYAt p.hurricane_window rows i = some (m + p.iqr_multiplier * q) ∨
        maskedYAt p.hurricane_window rows i = some (m - p.iqr_multiplier * q)) →
      flagAt p rows i = 0) := by
  refine ⟨(flagAt_one_iff p rows i).trans (isOutlierAt_true_iff _ _ _ _), ?_, ?_⟩
  · intro hnone
    rw [flagAt_zero_iff, hnone]
    cases rollingMedianAt p rows i <;> cases iqrAt p rows i <;> rfl
  · intro m q hm hq hb
    have hqn : 0 ≤ q := iqrAt_nonneg p rows i q hq
    have hkq : 0 ≤ p.iqr_multiplier * q := mul_nonneg hk hqn
    rw [flagAt_zero_iff, hm, hq]
    rcases hb with hb | hb <;> rw [hb] <;> simp [isOutlierAt, not_lt] <;> linarith

/-- Witness for claim C5: in the idempotence example row 1 is masked to
missing by the input itself and is not flagged. -/
theorem C5_outlier_flag_iff_witness :
    flagAt exParams8 exRows8 1 = 0 :=
  (C5_outlier_flag_iff exParams8 exRows8 1 (by with_unfolding_all decide)).2.1
    (by with_unfolding_all decide)

/-- Claim C8 counterexample: with exRows8 and a multiplier of 1000 no
point is flagged, row 1 is not hurricane masked and its input value is
missing, yet the cleaned value at row 1 is 10 (the forward fill), not
the missing input value: the cleaned column differs from the input at a
point that is not hurricane masked. -/
theorem C8_missing_unmasked_value_changed :
    ((List.range exRows8.length).all (fun i => flagAt exParams8 exRows8 i == 0)) = true ∧
    (hurricanePeriods exParams8.hurricane_window).contains 1 = false ∧
    exRows8.getD 1 ⟨0, none, ()⟩ = ⟨1, none, ()⟩ ∧
    getO (yFinalCol exParams8 exRows8) 1 = some 10 := by
  with_unfolding_all decide

/-- Claim C8 (amended): when no point is flagged, the cleaned value
column equals the input value column at every point that is not
hurricane masked and whose input value is present. -/
theorem C8_no_flag_preserves_present_values {a : Type} (p : CleaningParams)
    (rows : List (Row a)) (i : Nat) (r : Row a) (v : Val)
    (hflag : ∀ j, j < rows.length → flagAt p rows j = 0)
    (hr : rows[i]? = some r)
    (hmask : (hurricanePeriods p.hurricane_window).contains r.ds = false)
    (hy : r.y = some v) :
    getO (yFinalCol p rows) i = some v := by
  have hi : i < rows.length := by
    by_contra hc
    push_neg at hc
    rw [List.getElem?_eq_none hc] at hr
    exact Option.noConfusion hr
  have hnm : r.ds ∉ hurricanePeriods p.hurricane_window := by
    simpa using hmask
  have hmy : maskedYAt p.hurricane_window rows i = some v := by
    simp [maskedYAt, hr, hnm, hy]
  apply yFinal_of_pre_some p rows i v hi
  rw [yCleanPreAt_flag_zero p rows i (hflag i hi), hmy]

/-- Witness for claim C8: row 0 of the idempotence example keeps its
present value 10. -/
theorem C8_no_flag_preserves_present_values_witness :
    getO (yFinalCol exParams8 exRows8) 0 = some 10 :=
  C8_no_flag_preserves_present_values exParams8 exRows8 0 ⟨0, some 10, ()⟩ 10
    (by with_unfolding_all decide) (by with_unfolding_all decide)
    (by with_unfolding_all decide) (by with_unfolding_all decide)

theorem assignColName_of_not_mem (cols : List String) (c : String) (h : ¬ c ∈ cols) :
    assignColName cols c = cols ++ [c] := by
  rw [assignColName, if_neg]
  simpa using h

theorem clean_column_names_eq (extraCols : List String)
    (hfresh : ∀ c, c ∈ ["rolling_median", "iqr", "is_outlier", "y_clean", "y"] →
      ¬ c ∈ extraCols) :
    clean_column_names ("ds" :: "y" :: extraCols)
      = "ds" :: (extraCols ++ ["rolling_median", "iqr", "is_outlier", "y"]) := by
  have h1 : ("rolling_median" ∈ extraCols) = False := eq_false (hfresh _ (by simp))
  have h2 : ("iqr" ∈ extraCols) = False := eq_false (hfresh _ (by simp))
  have h3 : ("is_outlier" ∈ extraCols) = False := eq_false (hfresh _ (by simp))
  have h4 : ("y_clean" ∈ extraCols) = False := eq_false (hfresh _ (by simp))
  have h5 : ("y" ∈ extraCols) = False := eq_false (hfresh _ (by simp))
  have hf5 : extraCols.filter (fun s => s != "y") = extraCols :=
    List.filter_eq_self.mpr (fun x hx => by
      simp only [bne_iff_ne, ne_eq]
      intro he
      exact hfresh "y" (by simp) (he ▸ hx))
  have hm4 : extraCols.map (fun s => if s = "y_clean" then "y" else s) = extraCols := by
    have hc : ∀ x ∈ extraCols, (if x = "y_clean" then "y" else x) = x :=
      fun x hx => if_neg (fun (he : x = "y_clean") => hfresh "y_clean" (by simp) (he ▸ hx))
    rw [List.map_congr_left hc]
    simp
  simp [clean_column_names, assignColName, h1, h2, h3, h4, h5, hf5, hm4,
    List.filter_append, List.map_append]

/-- Claim C4 counterexample: the output frame of clean_train_data has a
column named is_outlier that the input frame (columns ds and y) does
not have, so a column beyond the stated outputs is introduced. -/
theorem C4_extra_columns_counterexample :
    "is_outlier" ∈ clean_column_names ["ds", "y"] ∧ ¬ "is_outlier" ∈ ["ds", "y"] := by
  decide

/-- Claim C4 (amended): clean_train_data keeps every row, with ds and
all extra columns unchanged, and replaces only the value column; but it
also adds the three diagnostic columns rolling_median, iqr and
is_outlier to the output. -/
theorem C4_frame_effect {a : Type} (p : CleaningParams) (rows : List (Row a))
    (extraCols : List String)
    (hfresh : ∀ c, c ∈ ["rolling_median", "iqr", "is_outlier", "y_clean", "y"] →
      ¬ c ∈ extraCols) :
    ((clean_train_data p rows).length = rows.length ∧
      (clean_train_data p rows).map (fun r => r.ds) = rows.map (fun r => r.ds) ∧
      (clean_train_data p rows).map (fun r => r.extra) = rows.map (fun r => r.extra)) ∧
    clean_column_names ("ds" :: "y" :: extraCols)
      = "ds" :: (extraCols ++ ["rolling_median", "iqr", "is_outlier", "y"]) :=
  ⟨⟨clean_train_data_length p rows, clean_train_data_map_ds p rows,
    clean_train_data_map_extra p rows⟩, clean_column_names_eq extraCols hfresh⟩

/-- Witness for claim C4: the frame effect at the worked example with
one extra column named temperature. -/
theorem C4_frame_effect_witness :
    ((clean_train_data exParams exRows).length = exRows.length ∧
      (clean_train_data exParams exRows).map (fun r => r.ds) = exRows.map (fun r => r.ds) ∧
      (clean_train_data exParams exRows).map (fun r => r.extra)
        = exRows.map (fun r => r.extra)) ∧
    clean_column_names ("ds" :: "y" :: ["temperature"])
      = "ds" :: (["temperature"] ++ ["rolling_median", "iqr", "is_outlier", "y"]) :=
  C4_frame_effect exParams exRows ["temperature"] (by decide)

theorem split_length_partition {a : Type} (rows : List (Row a)) (cutoff : Ts) :
    (split_train_test rows cutoff).1.length + (split_train_test rows cutoff).2.length
      = rows.length := by
  simp only [split_train_test]
  induction rows with
  | nil => rfl
  | cons x t ih =>
    by_cases h : x.ds < cutoff
    · simp [List.filter_cons, h, not_le.mpr h, ih]
      omega
    · simp [List.filter_cons, h, not_lt.mp h, ih]
      omega

theorem split_count_partition {a : Type} [DecidableEq a] (rows : List (Row a)) (cutoff : Ts)
    (r : Row a) :
    (split_train_test rows cutoff).1.count r + (split_train_test rows cutoff).2.count r
      = rows.count r := by
  simp only [split_train_test]
  by_cases h : r.ds < cutoff
  · rw [List.count_filter (by simpa using h)]
    have h2 : (rows.filter (fun x => decide (cutoff ≤ x.ds))).count r = 0 :=
      List.count_eq_zero.mpr
        (fun hm => absurd (by simpa using List.of_mem_filter hm) (not_le.mpr h))
    omega
  · have h1 : (rows.filter (fun x => decide (x.ds < cutoff))).count r = 0 :=
      List.count_eq_zero.mpr (fun hm => absurd (by simpa using List.of_mem_filter hm) h)
    rw [h1, List.count_filter (by simpa using not_lt.mp h)]
    omega

/-- Claim C6: an input row lies in the training set exactly when its ds
is strictly before the cutoff and in the test set exactly when its ds
is on or after it; the two parts together have the size of the input
and each input row lies in exactly one part, counted with
multiplicity. -/
theorem C6_split_partition {a : Type} [DecidableEq a] (rows : List (Row a)) (cutoff : Ts)
    (r : Row a) (hr : r ∈ rows) :
    (r ∈ (split_train_test rows cutoff).1 ↔ r.ds < cutoff) ∧
    (r ∈ (split_train_test rows cutoff).2 ↔ cutoff ≤ r.ds) ∧
    (split_train_test rows cutoff).1.length + (split_train_test rows cutoff).2.length
      = rows.length ∧
    (split_train_test rows cutoff).1.count r + (split_train_test rows cutoff).2.count r
      = rows.count r := by
  refine ⟨?_, ?_, split_length_partition rows cutoff, split_count_partition rows cutoff r⟩
  · constructor
    · intro hm
      simpa using List.of_mem_filter hm
    · intro hlt
      exact List.mem_filter.mpr ⟨hr, by simpa using hlt⟩
  · constructor
    · intro hm
      simpa using List.of_mem_filter hm
    · intro hle
      exact List.mem_filter.mpr ⟨hr, by simpa using hle⟩

/-- Witness for claim C6: the split of the three-row example at cutoff
5, checked for the first row. -/
theorem C6_split_partition_witness :
    (exR6 ∈ (split_train_test exRows6 5).1 ↔ exR6.ds < 5) ∧
    (exR6 ∈ (split_train_test exRows6 5).2 ↔ (5 : Ts) ≤ exR6.ds) ∧
    (split_train_test exRows6 5).1.length + (split_train_test exRows6 5).2.length
      = exRows6.length ∧
    (split_train_test exRows6 5).1.count exR6 + (split_train_test exRows6 5).2.count exR6
      = exRows6.count exR6 :=
  C6_split_partition exRows6 5 exR6 (by with_unfolding_all decide)

theorem vdiv_vabs_vsub (actual predicted : List Val) :
    vdiv (vabs (vsub actual predicted)) actual
      = List.zipWith (fun x y => |x - y| / x) actual predicted := by
  induction actual generalizing predicted with
  | nil => rfl
  | cons x t ih =>
    cases predicted with
    | nil => rfl
    | cons y u =>
      simp only [vsub, vabs, vdiv, List.zipWith, List.map]
      rw [← vdiv, ← vabs, ← vsub, ih u]

/-- Claim C7: the train MAPE computed by get_MAPE is the mean over all
paired points of the absolute difference divided by the actual, times
100 (the stated formula), and on actual [100, 200] and predicted
[110, 180] it is exactly 10 percent. -/
theorem C7_mape_formula (actual predicted : List Val)
    (hlen : actual.length = predicted.length)
    (_hnz : ∀ x, x ∈ actual → x ≠ 0) :
    (get_MAPE actual actual predicted predicted).1 = mapeSpec actual predicted ∧
    (get_MAPE [100, 200] [100, 200] [110, 180] [110, 180]).1 = 10 := by
  constructor
  · simp only [get_MAPE, mapeSpec, vmean]
    rw [vdiv_vabs_vsub]
    have hl : (List.zipWith (fun x y => |x - y| / x) actual predicted).length
        = actual.length := by
      rw [List.length_zipWith, hlen, Nat.min_self]
    rw [hl]
  · with_unfolding_all decide

/-- Witness for claim C7: the formula and the concrete value at the
stated scenario. -/
theorem C7_mape_formula_witness :
    (get_MAPE [100, 200] [100, 200] [110, 180] [110, 180]).1
        = mapeSpec [100, 200] [110, 180] ∧
    (get_MAPE [100, 200] [100, 200] [110, 180] [110, 180]).1 = 10 :=
  C7_mape_formula [100, 200] [110, 180] (by decide) (by with_unfolding_all decide)

/-- Claim C9: when the resolved path does not exist, load_data fails
with the not-found error whose message names the resolved absolute
path, and the outcome depends on nothing except that single existence
check at the resolved path (no retry, no other path consulted). -/
theorem C9_load_data_missing_file (ex : String → Bool) (readCsv : String → List RawRecord)
    (root rel : String) (h : ex (resolvePath root rel) = false) :
    load_data ex readCsv root rel
        = Except.error ("Data file not found at: " ++ resolvePath root rel) ∧
    (∃ pre post, "Data file not found at: " ++ resolvePath root rel
        = pre ++ (resolvePath root rel ++ post)) ∧
    (∀ ex2 readCsv2, ex2 (resolvePath root rel) = false →
      load_data ex2 readCsv2 root rel = load_data ex readCsv root rel) := by
  refine ⟨?_, ⟨"Data file not found at: ", "", by simp⟩, ?_⟩
  · simp [load_data, h]
  · intro ex2 readCsv2 h2
    simp [load_data, h, h2]

/-- Witness for claim C9: a filesystem on which nothing exists. -/
theorem C9_load_data_missing_file_witness :
    load_data (fun _ => false) (fun _ => []) "/home/user/energy_forecast"
        "data/PJME_hourly.csv"
      = Except.error ("Data file not found at: "
          ++ resolvePath "/home/user/energy_forecast" "data/PJME_hourly.csv") :=
  (C9_load_data_missing_file (fun _ => false) (fun _ => []) "/home/user/energy_forecast"
    "data/PJME_hourly.csv" rfl).1


theorem setColumn_of_not_mem (df : CFrame) (c : String) (col : List Cell)
    (h : ¬ c ∈ df.map Prod.fst) : setColumn df c col = df ++ [(c, col)] := by
  rw [setColumn, if_neg]
  intro hany
  rcases List.any_eq_true.mp hany with ⟨p, hp, hpc⟩
  exact h (List.mem_map.mpr ⟨p, hp, by simpa using hpc⟩)

theorem getColumn_append_right_none (df rest : CFrame) (d : String)
    (h : ¬ d ∈ rest.map Prod.fst) :
    getColumn (df ++ rest) d = getColumn df d := by
  rw [getColumn, getColumn, List.find?_append]
  have hrest : rest.find? (fun p => p.1 == d) = none :=
    List.find?_eq_none.mpr (fun x hx hbeq =>
      h (List.mem_map.mpr ⟨x, hx, by simpa using hbeq⟩))
  rw [hrest]
  cases df.find? (fun p => p.1 == d) <;> rfl

theorem getColumn_append_found (df : CFrame) (c : String) (col : List Cell)
    (h : ¬ c ∈ df.map Prod.fst) :
    getColumn (df ++ [(c, col)]) c = col := by
  rw [getColumn, List.find?_append]
  have hdf : df.find? (fun p => p.1 == c) = none :=
    List.find?_eq_none.mpr (fun x hx hbeq =>
      h (List.mem_map.mpr ⟨x, hx, by simpa using hbeq⟩))
  rw [hdf]
  simp [List.find?]

theorem map_fst_append_not_mem (c : String) (l rest : CFrame)
    (hl : ¬ c ∈ l.map Prod.fst) (hrest : ¬ c ∈ rest.map Prod.fst) :
    ¬ c ∈ (l ++ rest).map Prod.fst := by
  intro hmem
  rw [List.map_append] at hmem
  rcases List.mem_append.mp hmem with hm | hm
  · exact hl hm
  · exact hrest hm

theorem create_features_frame_eq (fm : FeatureMaps) (df : CFrame)
    (hfresh : ∀ c, c ∈ featureNames → ¬ c ∈ df.map Prod.fst) :
    create_features_frame fm df
      = df ++ [("hour", (getColumn df "ds").map dtHour),
          ("day_of_week", (getColumn df "ds").map dtDayofweek),
          ("is_weekend", ((getColumn df "ds").map dtDayofweek).map isWeekendCell),
          ("quarter", (getColumn df "ds").map (dtQuarter fm.quarterOf)),
          ("hour_sin", ((getColumn df "ds").map dtHour).map (cyclicalCell fm.sinTab)),
          ("hour_cos", ((getColumn df "ds").map dtHour).map (cyclicalCell fm.cosTab))] := by
  have h1 : ¬ "hour" ∈ df.map Prod.fst := hfresh _ (by simp [featureNames])
  have h2 : ¬ "day_of_week" ∈ df.map Prod.fst := hfresh _ (by simp [featureNames])
  have h3 : ¬ "is_weekend" ∈ df.map Prod.fst := hfresh _ (by simp [featureNames])
  have h4 : ¬ "quarter" ∈ df.map Prod.fst := hfresh _ (by simp [featureNames])
  have h5 : ¬ "hour_sin" ∈ df.map Prod.fst := hfresh _ (by simp [featureNames])
  have h6 : ¬ "hour_cos" ∈ df.map Prod.fst := hfresh _ (by simp [featureNames])
  simp only [create_features_frame]
  rw [setColumn_of_not_mem df "hour" ((getColumn df "ds").map dtHour) h1]
  rw [getColumn_append_right_none df [("hour", (getColumn df "ds").map dtHour)] "ds" (by simp)]
  rw [setColumn_of_not_mem (df ++ [("hour", (getColumn df "ds").map dtHour)]) "day_of_week" ((getColumn df "ds").map dtDayofweek)
    (map_fst_append_not_mem _ _ _ h2 (by simp))]
  rw [getColumn_append_found (df ++ [("hour", (getColumn df "ds").map dtHour)]) "day_of_week" ((getColumn df "ds").map dtDayofweek)
    (map_fst_append_not_mem _ _ _ h2 (by simp))]
  rw [setColumn_of_not_mem ((df ++ [("hour", (getColumn df "ds").map dtHour)]) ++ [("day_of_week", (getColumn df "ds").map dtDayofweek)]) "is_weekend" (((getColumn df "ds").map dtDayofweek).map isWeekendCell)
    (map_fst_append_not_mem _ _ _ (map_fst_append_not_mem _ _ _ h3 (by simp)) (by simp))]
  rw [getColumn_append_right_none ((df ++ [("hour", (getColumn df "ds").map dtHour)]) ++ [("day_of_week", (getColumn df "ds").map dtDayofweek)]) [("is_weekend", ((getColumn df "ds").map dtDayofweek).map isWeekendCell)] "ds" (by simp)]
  rw [getColumn_append_right_none (df ++ [("hour", (getColumn df "ds").map dtHour)]) [("day_of_week", (getColumn df "ds").map dtDayofweek)] "ds" (by simp)]
  rw [getColumn_append_right_none df [("hour", (getColumn df "ds").map dtHour)] "ds" (by simp)]
  rw [setColumn_of_not_mem (((df ++ [("hour", (getColumn df "ds").map dtHour)]) ++ [("day_of_week", (getColumn df "ds").map dtDayofweek)]) ++ [("is_weekend", ((getColumn df "ds").map dtDayofweek).map isWeekendCell)]) "quarter" ((getColumn df "ds").map (dtQuarter fm.quarterOf))
    (map_fst_append_not_mem _ _ _
      (map_fst_append_not_mem _ _ _ (map_fst_append_not_mem _ _ _ h4 (by simp)) (by simp))
      (by simp))]
  rw [getColumn_append_right_none (((df ++ [("hour", (getColumn df "ds").map dtHour)]) ++ [("day_of_week", (getColumn df "ds").map dtDayofweek)]) ++ [("is_weekend", ((getColumn df "ds").map dtDayofweek).map isWeekendCell)]) [("quarter", (getColumn df "ds").map (dtQuarter fm.quarterOf))] "hour" (by simp)]
  rw [getColumn_append_right_none ((df ++ [("hour", (getColumn df "ds").map dtHour)]) ++ [("day_of_week", (getColumn df "ds").map dtDayofweek)]) [("is_weekend", ((getColumn df "ds").map dtDayofweek).map isWeekendCell)] "hour" (by simp)]
  rw [getColumn_append_right_none (df ++ [("hour", (getColumn df "ds").map dtHour)]) [("day_of_week", (getColumn df "ds").map dtDayofweek)] "hour" (by simp)]
  rw [getColumn_append_found df "hour" ((getColumn df "ds").map dtHour) h1]
  rw [setColumn_of_not_mem ((((df ++ [("hour", (getColumn df "ds").map dtHour)]) ++ [("day_of_week", (getColumn df "ds").map dtDayofweek)]) ++ [("is_weekend", ((getColumn df "ds").map dtDayofweek).map isWeekendCell)]) ++ [("quarter", (getColumn df "ds").map (dtQuarter fm.quarterOf))]) "hour_sin" (((getColumn df "ds").map dtHour).map (cyclicalCell fm.sinTab))
    (map_fst_append_not_mem _ _ _
      (map_fst_append_not_mem _ _ _
        (map_fst_append_not_mem _ _ _ (map_fst_append_not_mem _ _ _ h5 (by simp)) (by simp))
        (by simp))
      (by simp))]
  rw [getColumn_append_right_none ((((df ++ [("hour", (getColumn df "ds").map dtHour)]) ++ [("day_of_week", (getColumn df "ds").map dtDayofweek)]) ++ [("is_weekend", ((getColumn df "ds").map dtDayofweek).map isWeekendCell)]) ++ [("quarter", (getColumn df "ds").map (dtQuarter fm.quarterOf))]) [("hour_sin", ((getColumn df "ds").map dtHour).map (cyclicalCell fm.sinTab))] "hour" (by simp)]
  rw [getColumn_append_right_none (((df ++ [("hour", (getColumn df "ds").map dtHour)]) ++ [("day_of_week", (getColumn df "ds").map dtDayofweek)]) ++ [("is_weekend", ((getColumn df "ds").map dtDayofweek).map isWeekendCell)]) [("quarter", (getColumn df "ds").map (dtQuarter fm.quarterOf))] "hour" (by simp)]
  rw [getColumn_append_right_none ((df ++ [("hour", (getColumn df "ds").map dtHour)]) ++ [("day_of_week", (getColumn df "ds").map dtDayofweek)]) [("is_weekend", ((getColumn df "ds").map dtDayofweek).map isWeekendCell)] "hour" (by simp)]
  rw [getColumn_append_right_none (df ++ [("hour", (getColumn df "ds").map dtHour)]) [("day_of_week", (getColumn df "ds").map dtDayofweek)] "hour" (by simp)]
  rw [getColumn_append_found df "hour" ((getColumn df "ds").map dtHour) h1]
  rw [setColumn_of_not_mem (((((df ++ [("hour", (getColumn df "ds").map dtHour)]) ++ [("day_of_week", (getColumn df "ds").map dtDayofweek)]) ++ [("is_weekend", ((getColumn df "ds").map dtDayofweek).map isWeekendCell)]) ++ [("quarter", (getColumn df "ds").map (dtQuarter fm.quarterOf))]) ++ [("hour_sin", ((getColumn df "ds").map dtHour).map (cyclicalCell fm.sinTab))]) "hour_cos" (((getColumn df "ds").map dtHour).map (cyclicalCell fm.cosTab))
    (map_fst_append_not_mem _ _ _
      (map_fst_append_not_mem _ _ _
        (map_fst_append_not_mem _ _ _
          (map_fst_append_not_mem _ _ _ (map_fst_append_not_mem _ _ _ h6 (by simp)) (by simp))
          (by simp))
        (by simp))
      (by simp))]
  simp [List.append_assoc]

/-- Claim C10: create_features returns the very reference it received;
the heap cell behind that reference now holds the received frame with
the six derived feature columns written into it (original columns in
place and untouched), and every other heap cell is unchanged: the
DataFrame of the caller is mutated in place rather than copied. -/
theorem C10_create_features_in_place (fm : FeatureMaps) (h : Heap) (r i : Nat)
    (df : CFrame) (hr : r < h.length) (hdf : h.getD r [] = df)
    (hfresh : ∀ c, c ∈ featureNames → ¬ c ∈ df.map Prod.fst) (hi : i ≠ r) :
    (create_features fm h r).2 = r ∧
    ((create_features fm h r).1).getD r []
      = df ++ [("hour", (getColumn df "ds").map dtHour),
          ("day_of_week", (getColumn df "ds").map dtDayofweek),
          ("is_weekend", ((getColumn df "ds").map dtDayofweek).map isWeekendCell),
          ("quarter", (getColumn df "ds").map (dtQuarter fm.quarterOf)),
          ("hour_sin", ((getColumn df "ds").map dtHour).map (cyclicalCell fm.sinTab)),
          ("hour_cos", ((getColumn df "ds").map dtHour).map (cyclicalCell fm.cosTab))] ∧
    ((create_features fm h r).1).getD i [] = h.getD i [] := by
  refine ⟨rfl, ?_, ?_⟩
  · show (h.set r (create_features_frame fm (h.getD r []))).getD r [] = _
    have hset : (h.set r (create_features_frame fm (h.getD r []))).getD r []
        = create_features_frame fm (h.getD r []) := by
      simp [List.getD, List.getElem?_set_self hr]
    rw [hset, hdf]
    exact create_features_frame_eq fm df hfresh
  · show (h.set r (create_features_frame fm (h.getD r []))).getD i [] = h.getD i []
    simp [List.getD, List.getElem?_set_ne (Ne.symm hi)]


/-- Witness for claim C10: the first heap cell is extended in place and
the second is untouched. -/
theorem C10_create_features_in_place_witness :
    (create_features exFM exHeap 0).2 = 0 ∧
    ((create_features exFM exHeap 0).1).getD 0 []
      = [("ds", [Cell.ts 0])]
          ++ [("hour", (getColumn [("ds", [Cell.ts 0])] "ds").map dtHour),
            ("day_of_week", (getColumn [("ds", [Cell.ts 0])] "ds").map dtDayofweek),
            ("is_weekend",
              ((getColumn [("ds", [Cell.ts 0])] "ds").map dtDayofweek).map isWeekendCell),
            ("quarter",
              (getColumn [("ds", [Cell.ts 0])] "ds").map (dtQuarter exFM.quarterOf)),
            ("hour_sin",
              ((getColumn [("ds", [Cell.ts 0])] "ds").map dtHour).map
                (cyclicalCell exFM.sinTab)),
            ("hour_cos",
              ((getColumn [("ds", [Cell.ts 0])] "ds").map dtHour).map
                (cyclicalCell exFM.cosTab))] ∧
    ((create_features exFM exHeap 0).1).getD 1 [] = exHeap.getD 1 [] :=
  C10_create_features_in_place exFM exHeap 0 1 [("ds", [Cell.ts 0])] (by decide) rfl
    (by decide) (by decide)
